import Mathlib

/-!
# Verification of the gitbook version-resolution engine

Shallow embedding of the version resolution and lifecycle engine of the
`hitzhangjie/gitbook` repository: the `tags` package (version identifier
rules), the Masterminds/semver v3 library routines the program calls
(an external dependency, modelled here after that library's code since the
program's behaviour hinges on it), the `local` store, the `registry`
client/installer, and the `manager` orchestration layer.

Strings are processed as `List Char`; Go compares raw UTF-8 bytes, and
UTF-8 byte order agrees with code-point order, so character-wise
comparison below is faithful.
-/

/-- Decidable equality for `Except` results, so concrete runs can be
checked by `decide`. -/
instance {e a : Type} [DecidableEq e] [DecidableEq a] : DecidableEq (Except e a) := fun x y =>
  match x, y with
  | .ok u, .ok v =>
    if h : u = v then .isTrue (by rw [h]) else .isFalse (by simp [h])
  | .error u, .error v =>
    if h : u = v then .isTrue (by rw [h]) else .isFalse (by simp [h])
  | .ok _, .error _ => .isFalse (by simp)
  | .error _, .ok _ => .isFalse (by simp)

/-! ## Character / string primitives (Go `strings`, `strconv`) -/

/-- Split a character list on a separator character, Go `strings.Split`
semantics: splitting the empty string yields one empty field. -/
def splitOnCh (sep : Char) : List Char → List (List Char)
  | [] => [[]]
  | a :: as =>
    match splitOnCh sep as with
    | [] => [[]]
    | h :: t => if a = sep then [] :: h :: t else (a :: h) :: t

/-- Split on the two-character separator `||`, leftmost, non-overlapping
(Go `strings.Split(s, "||")`). -/
def splitOnPipes : List Char → List (List Char)
  | [] => [[]]
  | '|' :: '|' :: rest => [] :: splitOnPipes rest
  | a :: rest =>
    match splitOnPipes rest with
    | [] => [[a]]
    | h :: t => (a :: h) :: t

/-- Join fields back with `-` (inverse of splitting a prerelease on `-`). -/
def joinDash : List (List Char) → List Char
  | [] => []
  | [p] => p
  | p :: ps => p ++ '-' :: joinDash ps

/-- Numeric value of a digit list (caller checks all are digits). -/
def digitsVal (l : List Char) : Nat :=
  l.foldl (fun acc c => 10 * acc + (c.toNat - '0'.toNat)) 0

/-- Go `strconv.ParseUint(s, 10, 64)`: non-empty, digits only, no sign,
value at most `2^64 - 1`. -/
def parseUint64 (l : List Char) : Option Nat :=
  if l ≠ [] ∧ l.all (·.isDigit) then
    let n := digitsVal l
    if n ≤ 18446744073709551615 then some n else none
  else none

/-- Byte-lexicographic "less than" on strings as Go compares them
(UTF-8 byte order = code-point order). -/
def charListLt : List Char → List Char → Bool
  | [], [] => false
  | [], _ :: _ => true
  | _ :: _, [] => false
  | a :: as, b :: bs =>
    if a.toNat < b.toNat then true
    else if b.toNat < a.toNat then false
    else charListLt as bs

/-! ## Masterminds/semver v3: `Version` (external dependency model)

`NewVersion` accepts `v?seg(.seg)?(.seg)?(-pre)?(+meta)?` where each core
segment must parse with `ParseUint` (the lenient regex also admits
`x X * |` characters in core segments, but `ParseUint` then fails, so
digit-checking is equivalent), and prerelease/metadata are non-empty
dot-separated identifiers over `[0-9A-Za-z-]`. -/

structure GoVersion where
  major : Nat
  minor : Nat
  patch : Nat
  pre : List Char
  meta : List Char
deriving DecidableEq, Repr

/-- Identifier chunk list check: every dot-separated part non-empty over
`[0-9A-Za-z-]` (the regex classes for prerelease and metadata). -/
def checkIdentChunks (l : List Char) : Bool :=
  (splitOnCh '.' l).all fun p => !p.isEmpty && p.all fun c => c.isAlphanum || c = '-'

/-- Parse the 1-3 dot-separated numeric core segments. -/
def parseCoreSegs : List (List Char) → Option (Nat × Nat × Nat)
  | [a] => (parseUint64 a).map fun ma => (ma, 0, 0)
  | [a, b] =>
    match parseUint64 a, parseUint64 b with
    | some ma, some mb => some (ma, mb, 0)
    | _, _ => none
  | [a, b, c] =>
    match parseUint64 a, parseUint64 b, parseUint64 c with
    | some ma, some mb, some mc => some (ma, mb, mc)
    | _, _, _ => none
  | _ => none

/-- Core-plus-prerelease part (everything before any `+`). -/
def newVersionCore (cp meta : List Char) : Option GoVersion :=
  match splitOnCh '-' cp with
  | [] => none
  | core :: rest =>
    let pre := joinDash rest
    if rest.isEmpty || checkIdentChunks pre then
      match parseCoreSegs (splitOnCh '.' core) with
      | some (ma, mi, pa) => some ⟨ma, mi, pa, if rest.isEmpty then [] else pre, meta⟩
      | none => none
    else none

/-- Masterminds `semver.NewVersion` on a character list. -/
def newVersionL (s : List Char) : Option GoVersion :=
  let s := match s with
    | 'v' :: rest => rest
    | other => other
  match splitOnCh '+' s with
  | [corePre] => newVersionCore corePre []
  | [corePre, meta] => if checkIdentChunks meta then newVersionCore corePre meta else none
  | _ => none

/-- Masterminds `semver.NewVersion`. -/
def NewVersion (s : String) : Option GoVersion := newVersionL s.data

/-- Masterminds `compareSegment`. -/
def compareSegment (v o : Nat) : Int :=
  if v < o then -1 else if v > o then 1 else 0

/-- Masterminds `comparePrePart`: compares one dot-separated prerelease
identifier; numeric identifiers — read with Go `ParseUint`, so unsigned
and at most `2^64 - 1`; a sign-prefixed identifier such as `-99` is an
alphanumeric — compare numerically and rank below alphanumeric ones;
two alphanumerics compare in byte-wise string order. -/
def comparePrePart (s o : List Char) : Int :=
  if s = o then 0
  else if s = [] then (if o ≠ [] then -1 else 1)
  else if o = [] then (if s ≠ [] then 1 else -1)
  else
    match parseUint64 o, parseUint64 s with
    | some oi, some si => if si > oi then 1 else -1
    | some _, none => 1
    | none, some _ => -1
    | none, none => if charListLt o s then 1 else -1

/-- Tail of the `comparePrerelease` loop once the left identifier list is
exhausted (left side padded with empty identifiers). -/
def comparePreTailO : List (List Char) → Int
  | [] => 0
  | o :: os =>
    let d := comparePrePart [] o
    if d ≠ 0 then d else comparePreTailO os

/-- Tail of the `comparePrerelease` loop once the right identifier list is
exhausted (right side padded with empty identifiers). -/
def comparePreTailS : List (List Char) → Int
  | [] => 0
  | s :: ss =>
    let d := comparePrePart s []
    if d ≠ 0 then d else comparePreTailS ss

/-- Masterminds `comparePrerelease` main loop: pointwise comparison with
empty-identifier padding for the shorter list. -/
def comparePreChunks : List (List Char) → List (List Char) → Int
  | [], os => comparePreTailO os
  | s :: ss, [] =>
    let d := comparePrePart s []
    if d ≠ 0 then d else comparePreTailS ss
  | s :: ss, o :: os =>
    let d := comparePrePart s o
    if d ≠ 0 then d else comparePreChunks ss os

/-- Masterminds `comparePrerelease`. -/
def comparePrerelease (p q : List Char) : Int :=
  comparePreChunks (splitOnCh '.' p) (splitOnCh '.' q)

/-- Masterminds `Version.Compare`: major, minor, patch, then prerelease
(absence of prerelease ranks higher); build metadata ignored. -/
def GoCompare (v o : GoVersion) : Int :=
  let d := compareSegment v.major o.major
  if d ≠ 0 then d
  else
    let d := compareSegment v.minor o.minor
    if d ≠ 0 then d
    else
      let d := compareSegment v.patch o.patch
      if d ≠ 0 then d
      else
        if v.pre = [] ∧ o.pre = [] then 0
        else if v.pre = [] then 1
        else if o.pre = [] then -1
        else comparePrerelease v.pre o.pre

/-- Masterminds `Version.LessThan`. -/
def GoLessThan (v o : GoVersion) : Bool := decide (GoCompare v o < 0)

/-! ## The `tags` package (src/tags/tags.go) -/

/-- `tags.ALLOWED_TAGS`. -/
def ALLOWED_TAGS : List String := ["latest", "pre", "beta", "alpha"]

/-- `tags.IsTag`: true if a version is a tag. -/
def IsTag (version : String) : Bool :=
  ALLOWED_TAGS.any fun tag => tag = version

/-- Loop of `tags.getTagIndex`. -/
def getTagIndexAux (i : Int) : List String → String → Int
  | [], _ => -1
  | t :: ts, tag => if t = tag then i else getTagIndexAux (i + 1) ts tag

/-- `tags.getTagIndex`. -/
def getTagIndex (tag : String) : Int :=
  getTagIndexAux 0 ALLOWED_TAGS tag

/-- `tags.Sort`: compares two version identifiers. Two tags compare by
tag index; a tag against a non-tag yields `-1`; two non-tags compare by
semantic version after parsing, unparseable entries grouped via the
error cases. -/
def tagsSort (a b : String) : Int :=
  let aIsTag := IsTag a
  let bIsTag := IsTag b
  if aIsTag && bIsTag then
    let aIndex := getTagIndex a
    let bIndex := getTagIndex b
    if aIndex > bIndex then -1
    else if bIndex > aIndex then 1
    else 0
  else if aIsTag then -1
  else if bIsTag then 1
  else
    match newVersionL a.data, newVersionL b.data with
    | none, none => 0
    | none, some _ => -1
    | some _, none => 1
    | some va, some vb =>
      if GoLessThan va vb then 1
      else if GoLessThan vb va then -1
      else 0

/-- First allowed tag whose name is a prefix of the prerelease string
(loop inside `tags.GetTag`). -/
def findTagPre : List String → List Char → Option String
  | [], _ => none
  | t :: ts, pre => if t.data.isPrefixOf pre then some t else findTagPre ts pre

/-- `tags.GetTag`: extracts the release-channel tag from a version. -/
def GetTag (version : String) : String :=
  if IsTag version then version
  else
    match newVersionL version.data with
    | none => "latest"
    | some v =>
      if v.pre ≠ [] then
        match findTagPre ALLOWED_TAGS v.pre with
        | some t => t
        | none => "latest"
      else "latest"

/-! ## Masterminds/semver v3: constraints (external dependency model)

`NewConstraint` splits on `||`, validates each segment as a sequence of
`(operator, version-pattern)` groups separated by whitespace and optional
commas, rewrites `cv - cv` hyphen ranges into a `>=`/`<=` pair, and
parses each group; `x`/`X`/`*` core segments produce "dirty" wildcard
constraints. Check functions follow the library's per-operator logic;
only the `""`/`"="` and `">"` operators are exercised by the theorems
below (the program's constraints are exact versions and `>1.x.x`). -/

structure CVPat where
  seg1 : List Char
  seg2 : Option (List Char)
  seg3 : Option (List Char)
  pre : List Char
  meta : List Char
deriving DecidableEq, Repr

/-- Character class of a constraint core segment (the lenient regex class
`[0-9|x|X|\*]`, which contains a literal `|`). -/
def coreChar (c : Char) : Bool :=
  c.isDigit || c = 'x' || c = 'X' || c = '*' || c = '|'

/-- 1-3 dot-separated core segments of a constraint version pattern. -/
def parseCVSegs : List (List Char) → Option (List Char × Option (List Char) × Option (List Char))
  | [a] => if !a.isEmpty && a.all coreChar then some (a, none, none) else none
  | [a, b] =>
    if (!a.isEmpty && a.all coreChar) && (!b.isEmpty && b.all coreChar) then
      some (a, some b, none)
    else none
  | [a, b, c] =>
    if ((!a.isEmpty && a.all coreChar) && (!b.isEmpty && b.all coreChar))
        && (!c.isEmpty && c.all coreChar) then
      some (a, some b, some c)
    else none
  | _ => none

/-- Core-plus-prerelease part of a constraint version pattern. -/
def parseCVCore (cp meta : List Char) : Option CVPat :=
  match splitOnCh '-' cp with
  | [] => none
  | core :: rest =>
    let pre := joinDash rest
    if rest.isEmpty || checkIdentChunks pre then
      match parseCVSegs (splitOnCh '.' core) with
      | some (a, b, c) => some ⟨a, b, c, if rest.isEmpty then [] else pre, meta⟩
      | none => none
    else none

/-- Constraint version pattern (`cvRegex`): like a version but core
segments may be wildcards. -/
def parseCVPat (s : List Char) : Option CVPat :=
  let s := match s with
    | 'v' :: rest => rest
    | other => other
  match splitOnCh '+' s with
  | [corePre] => parseCVCore corePre []
  | [corePre, meta] => if checkIdentChunks meta then parseCVCore corePre meta else none
  | _ => none

/-- Masterminds `isX`. -/
def isX (s : List Char) : Bool := s = ['x'] || s = ['X'] || s = ['*']

structure GoConstraint where
  op : String
  con : GoVersion
  dirty : Bool
  minorDirty : Bool
  patchDirty : Bool
deriving DecidableEq, Repr

/-- Masterminds `parseConstraint` wildcard ("dirty") handling: an `x`
major yields `0.0.0` with the pattern's prerelease kept; an absent or
`x` minor/patch zero-fills, also keeping the prerelease; otherwise the
pattern itself must be a valid version. -/
def parseConstraintPat (op : String) (p : CVPat) : Option GoConstraint :=
  if isX p.seg1 then some ⟨op, ⟨0, 0, 0, p.pre, []⟩, true, false, false⟩
  else
    let minorCase : Option GoConstraint :=
      (parseUint64 p.seg1).map fun ma => ⟨op, ⟨ma, 0, 0, p.pre, []⟩, true, true, false⟩
    let patchCase : Option GoConstraint :=
      match p.seg2 with
      | none => none
      | some s2 =>
        match parseUint64 p.seg1, parseUint64 s2 with
        | some ma, some mb => some ⟨op, ⟨ma, mb, 0, p.pre, []⟩, true, false, true⟩
        | _, _ => none
    match p.seg2 with
    | none => minorCase
    | some s2 =>
      if isX s2 then minorCase
      else
        match p.seg3 with
        | none => patchCase
        | some s3 =>
          if isX s3 then patchCase
          else
            match parseUint64 p.seg1, parseUint64 s2, parseUint64 s3 with
            | some ma, some mb, some mc =>
              some ⟨op, ⟨ma, mb, mc, p.pre, p.meta⟩, false, false, false⟩
            | _, _, _ => none

/-- Go regexp `\s` class. -/
def goSpace (c : Char) : Bool :=
  c = ' ' || c = '\t' || c = '\n' || c = '\r' || c = '\x0c'

/-- Characters that can occur inside a constraint version pattern token. -/
def cvTokenChar (c : Char) : Bool :=
  c.isAlphanum || c = '.' || c = '-' || c = '+' || c = '*' || c = '|'

/-- Drop an expected literal prefix. -/
def dropPrefixL : List Char → List Char → Option (List Char)
  | [], cs => some cs
  | p :: ps, c :: cs => if p = c then dropPrefixL ps cs else none
  | _ :: _, [] => none

/-- Operators of the constraint grammar, in the regex alternation order
(the empty operator first). -/
def opsList : List String := ["", "=", "!=", ">", "<", ">=", "=>", "<=", "=<", "~", "~>", "^"]

/-- Try each operator in alternation order; succeed on the first whose
removal leaves (after optional spaces) a parseable version-pattern
token, mirroring the leftmost-alternation regex match. -/
def tryOps : List String → List Char → Option (String × CVPat × List Char)
  | [], _ => none
  | op :: rest, cs =>
    match dropPrefixL op.data cs with
    | some cs1 =>
      let cs2 := List.dropWhile goSpace cs1
      let tok := cs2.takeWhile cvTokenChar
      let cs3 := cs2.dropWhile cvTokenChar
      match (if tok.isEmpty then none else parseCVPat tok) with
      | some pat => some (op, pat, cs3)
      | none => tryOps rest cs
    | none => tryOps rest cs

/-- Hyphen-range tail `\s+ - \s+ cv` after a version pattern
(`rewriteRange` turns `cv - cv` into a `>=`/`<=` pair). -/
def rangeTail (rest : List Char) : Option (CVPat × List Char) :=
  match rest with
  | [] => none
  | c :: _ =>
    if goSpace c then
      match List.dropWhile goSpace rest with
      | '-' :: r2 =>
        match r2 with
        | [] => none
        | d :: _ =>
          if goSpace d then
            let r3 := List.dropWhile goSpace r2
            let tok := r3.takeWhile cvTokenChar
            let r4 := r3.dropWhile cvTokenChar
            match (if tok.isEmpty then none else parseCVPat tok) with
            | some pat => some (pat, r4)
            | none => none
          else none
      | _ => none
    else none

/-- One constraint group: an operator with its pattern, or a hyphen range
(only valid with the empty operator) contributing two groups. -/
def parseOneUnit (cs : List Char) : Option (List (String × CVPat) × List Char) :=
  let cs1 := List.dropWhile goSpace cs
  match tryOps opsList cs1 with
  | none => none
  | some (op, pat, rest) =>
    match rangeTail rest with
    | some (pat2, rest2) =>
      if op = "" then some ([(">=", pat), ("<=", pat2)], rest2) else none
    | none => some ([(op, pat)], rest)

/-- Segment loop of `NewConstraint` validation: groups separated by
whitespace and at most one comma each. -/
def parseGroupsLoop : Nat → List Char → Option (List (String × CVPat))
  | 0, _ => none
  | fuel + 1, cs =>
    match parseOneUnit cs with
    | none => none
    | some (units, rest) =>
      let rest1 := List.dropWhile goSpace rest
      match rest1 with
      | [] => some units
      | ',' :: rest2 =>
        if (List.dropWhile goSpace rest2).isEmpty then some units
        else
          match parseGroupsLoop fuel rest2 with
          | some more => some (units ++ more)
          | none => none
      | other =>
        match parseGroupsLoop fuel other with
        | some more => some (units ++ more)
        | none => none

/-- One `||`-segment: validate and parse every group. -/
def parseSegment (seg : List Char) : Option (List GoConstraint) :=
  match parseGroupsLoop (seg.length + 1) seg with
  | none => none
  | some units => units.mapM fun u => parseConstraintPat u.1 u.2

/-- Masterminds `semver.NewConstraint`: disjunction (over `||`) of
conjunctions of constraints; any invalid part fails the whole parse. -/
def NewConstraint (c : String) : Option (List (List GoConstraint)) :=
  (splitOnPipes c.data).mapM parseSegment

/-- Shared guard: a version carrying a prerelease only matches a
constraint whose own version carries one. -/
def conPreGate (v : GoVersion) (c : GoConstraint) : Bool :=
  !v.pre.isEmpty && c.con.pre.isEmpty

/-- Masterminds `constraintTilde` (`~`, `~>`). -/
def constraintTilde (v : GoVersion) (c : GoConstraint) : Bool :=
  if conPreGate v c then false
  else if GoLessThan v c.con then false
  else if c.con.major = 0 ∧ c.con.minor = 0 ∧ c.con.patch = 0
      ∧ c.minorDirty = false ∧ c.patchDirty = false then true
  else if v.major ≠ c.con.major then false
  else if v.minor ≠ c.con.minor ∧ c.minorDirty = false then false
  else true

/-- Masterminds `constraintTildeOrEqual` (the empty operator and `=`). -/
def constraintTildeOrEqual (v : GoVersion) (c : GoConstraint) : Bool :=
  if conPreGate v c then false
  else if c.dirty then constraintTilde v c
  else GoCompare v c.con = 0

/-- Masterminds `constraintGreaterThan` (`>`). -/
def constraintGreaterThan (v : GoVersion) (c : GoConstraint) : Bool :=
  if conPreGate v c then false
  else if c.dirty = false then GoCompare v c.con = 1
  else if v.major > c.con.major then true
  else if v.major < c.con.major then false
  else if c.minorDirty then false
  else if c.patchDirty then v.minor > c.con.minor
  else GoCompare v c.con = 1

/-- Masterminds `constraintGreaterThanEqual` (`>=`, `=>`). -/
def constraintGreaterThanEqual (v : GoVersion) (c : GoConstraint) : Bool :=
  if conPreGate v c then false
  else GoCompare v c.con ≥ 0

/-- Masterminds `constraintLessThan` (`<`). -/
def constraintLessThan (v : GoVersion) (c : GoConstraint) : Bool :=
  if conPreGate v c then false
  else GoCompare v c.con < 0

/-- Masterminds `constraintLessThanEqual` (`<=`, `=<`). -/
def constraintLessThanEqual (v : GoVersion) (c : GoConstraint) : Bool :=
  if conPreGate v c then false
  else if c.dirty = false then GoCompare v c.con ≤ 0
  else if v.major > c.con.major then false
  else if v.major = c.con.major ∧ v.minor > c.con.minor ∧ c.minorDirty = false then false
  else true

/-- Masterminds `constraintNotEqual` (`!=`). -/
def constraintNotEqual (v : GoVersion) (c : GoConstraint) : Bool :=
  if conPreGate v c then false
  else if c.dirty then
    if c.con.major ≠ v.major then true
    else if c.con.minor ≠ v.minor ∧ c.minorDirty = false then true
    else if c.minorDirty then false
    else if c.con.patch ≠ v.patch ∧ c.patchDirty = false then true
    else if c.patchDirty then
      if v.pre ≠ [] ∨ c.con.pre ≠ [] then comparePrerelease v.pre c.con.pre ≠ 0
      else false
    else GoCompare v c.con ≠ 0
  else GoCompare v c.con ≠ 0

/-- Masterminds `constraintCaret` (`^`). -/
def constraintCaret (v : GoVersion) (c : GoConstraint) : Bool :=
  if conPreGate v c then false
  else if GoLessThan v c.con then false
  else if c.con.major > 0 ∨ c.minorDirty then v.major = c.con.major
  else if c.con.minor > 0 ∨ c.patchDirty then v.minor = c.con.minor ∧ v.major = c.con.major
  else v.major = 0 ∧ v.minor = 0 ∧ v.patch = c.con.patch

/-- Per-operator dispatch (the library's `constraintOps` table). -/
def constraintCheck (c : GoConstraint) (v : GoVersion) : Bool :=
  match c.op with
  | "" => constraintTildeOrEqual v c
  | "=" => constraintTildeOrEqual v c
  | "!=" => constraintNotEqual v c
  | ">" => constraintGreaterThan v c
  | "<" => constraintLessThan v c
  | ">=" => constraintGreaterThanEqual v c
  | "=>" => constraintGreaterThanEqual v c
  | "<=" => constraintLessThanEqual v c
  | "=<" => constraintLessThanEqual v c
  | "~" => constraintTilde v c
  | "~>" => constraintTilde v c
  | "^" => constraintCaret v c
  | _ => false

/-- Masterminds `Constraints.Check`: OR over the `||` groups, AND within
each group. -/
def constraintsCheck (cs : List (List GoConstraint)) (v : GoVersion) : Bool :=
  cs.any fun grp => grp.all fun c => constraintCheck c v

/-! ## The rest of the `tags` package -/

/-- `tags.IsValid`: tags are always valid; a semantic version is valid
iff it parses and satisfies the constraint; parse failure of either
string yields `false`, never an error. -/
def IsValid (version gitbookVersionConstraint : String) : Bool :=
  if IsTag version then true
  else
    match NewVersion version with
    | none => false
    | some v =>
      match NewConstraint gitbookVersionConstraint with
      | none => false
      | some constraint => constraintsCheck constraint v

/-- `tags.Satisfies`: a tag satisfies only `*` or itself; otherwise an
accepted tag condition matches the version's channel; otherwise the
condition is parsed as a constraint and checked. -/
def Satisfies (version condition : String) (acceptTagCondition : Bool) : Bool :=
  if IsTag version then (condition == "*") || (version == condition)
  else if acceptTagCondition && (GetTag version == condition) then true
  else
    match NewVersion version with
    | none => false
    | some v =>
      match NewConstraint condition with
      | none => false
      | some constraint => constraintsCheck constraint v

/-! ## The `local` store (package `local`)

The store root directory is modelled as an association list from entry
name to filesystem entry. Reading `package.json` through a path (which
follows a symlink) is modelled by the entry's `pkg` field: `none` stands
for a missing or unparseable manifest. `extraFiles` records whether a
real directory holds files besides the manifest (an installed artifact
tree does), which decides whether Go's `os.Remove` succeeds on it. -/

structure PkgJson where
  name : String
  version : String
deriving DecidableEq, Repr

inductive FSEntry where
  | dir (pkg : Option PkgJson) (extraFiles : Bool)
  | symlink (target : String) (pkg : Option PkgJson)
deriving DecidableEq, Repr

abbrev Store := List (String × FSEntry)

/-- `config.GITBOOK_VERSION`. -/
def GITBOOK_VERSION : String := ">1.x.x"

/-- The configured store root (`config.VERSIONS_ROOT`); its concrete
value never matters to the claims, only path concatenation with it. -/
def VERSIONS_ROOT : String := ".gitbook/versions"

/-- What `os.ReadFile(path/package.json)` + `json.Unmarshal` yields. -/
def FSEntry.readPkg : FSEntry → Option PkgJson
  | .dir pkg _ => pkg
  | .symlink _ pkg => pkg

/-- `os.Readlink` result recorded by `local.Versions` (empty when the
entry is not a symlink). -/
def FSEntry.linkPath : FSEntry → String
  | .dir _ _ => ""
  | .symlink target _ => target

/-- Go `os.Remove`: unlinks a symlink, removes an empty directory, and
fails (`ENOTEMPTY`) on a directory with contents. -/
def osRemoveOk : FSEntry → Bool
  | .symlink _ _ => true
  | .dir pkg extraFiles => pkg.isNone && !extraFiles

/-- Remove a named entry from the store root (directory names are
unique on a filesystem, so a filter is exact). -/
def storeErase (s : Store) (name : String) : Store :=
  s.filter fun p => !(p.1 == name)

structure VersionInfo where
  Name : String
  Version : String
  Path : String
  Link : String
  Tag : String
deriving DecidableEq, Repr

/-- Go-style comparison exchange sort used by `local.Versions` and the
registry tiers: for `i < j`, when `cmp a[i] a[j] < 0` the two elements
are swapped. One outer-loop iteration: scan the tail against the

current front element, swapping it out whenever the comparison is
negative; the displaced element takes the scanned position. -/
def selPass (cmp : α → α → Int) : α → List α → α × List α
  | h, [] => (h, [])
  | h, y :: ys =>
    if cmp h y < 0 then
      let r := selPass cmp y ys
      (r.1, h :: r.2)
    else
      let r := selPass cmp h ys
      (r.1, y :: r.2)

/-- Whole double loop of the comparison exchange sort (fuel is the list
length, which `selPass` preserves). -/
def goSortFuel (cmp : α → α → Int) : Nat → List α → List α
  | 0, l => l
  | _ + 1, [] => []
  | fuel + 1, x :: xs =>
    let r := selPass cmp x xs
    r.1 :: goSortFuel cmp fuel r.2

/-- The sort both `local.Versions` and the registry tiers perform. -/
def goSort (cmp : α → α → Int) (l : List α) : List α :=
  goSortFuel cmp l.length l

/-- `local.Versions` filter-and-read loop: skip entries whose name fails
`tags.IsValid`, whose manifest is unreadable, or whose manifest `name`
is not `gitbook`. -/
def collectVersions (store : Store) : List VersionInfo :=
  store.filterMap fun entry =>
    let tag := entry.1
    if IsValid tag GITBOOK_VERSION = false then none
    else
      match entry.2.readPkg with
      | none => none
      | some pkg =>
        if pkg.name ≠ "gitbook" then none
        else
          some ⟨tag, pkg.version, VERSIONS_ROOT ++ "/" ++ tag,
            entry.2.linkPath, GetTag pkg.version⟩

/-- `local.Versions`: list installed versions, then run the exchange
sort with `tags.Sort` on the manifest (authoritative) versions. -/
def localVersions (store : Store) : List VersionInfo :=
  goSort (fun a b => tagsSort a.Version b.Version) (collectVersions store)

/-- `local.Resolve`: first listed entry whose name satisfies the
condition (tag conditions accepted). -/
def localResolve (store : Store) (condition : String) : Except String VersionInfo :=
  match (localVersions store).find? (fun v => Satisfies v.Name condition true) with
  | some v => .ok v
  | none => .error ("no version match: " ++ condition)

/-- `local.Remove`: error on empty name or missing entry; a symlink is
unlinked, a directory removed recursively — either way the named store
entry disappears. -/
def localRemove (store : Store) (version : String) : Except String Store :=
  if version = "" then .error "no version specified"
  else
    match store.lookup version with
    | none => .error ("version " ++ version ++ " is not installed")
    | some _ => .ok (storeErase store version)

/-- `filepath.Abs` (modelled without path cleaning). -/
def goAbs (cwd p : String) : String :=
  if p.data.head? = some '/' then p else cwd ++ "/" ++ p

/-- `local.Link`: validate arguments, remove any pre-existing entry at
the name with `os.Remove`, then create the symlink. `ext` models the
filesystem outside the store root: the manifest readable through the
new symlink's target. -/
def Link (ext : String → Option PkgJson) (store : Store) (name folder cwd : String) :
    Except String Store :=
  if name = "" then .error "require a name to represent this GitBook version"
  else if folder = "" then .error "require a folder"
  else
    let absFolder := goAbs cwd folder
    match store.lookup name with
    | some e =>
      if osRemoveOk e then
        .ok (storeErase store name ++ [(name, .symlink absFolder (ext absFolder))])
      else .error "directory not empty"
    | none => .ok (store ++ [(name, .symlink absFolder (ext absFolder))])

/-! ## The `registry` client and installer (package `registry`)

The npm subprocess and the HTTP endpoint are external inputs; each is
modelled as the data the corresponding tier decodes, with `none`
standing for that tier's own failure (missing executable, non-zero
exit, network failure, or JSON that does not unmarshal). -/

/-- A decoded JSON value as far as the npm tier inspects one: a string
or anything else. -/
inductive JVal where
  | str (s : String)
  | other
deriving DecidableEq, Repr

/-- Decoded `npm view gitbook versions dist-tags --json` output:
`versions` must be a JSON array (else "invalid npm response format"),
`dist-tags` defaults to empty when not an object. -/
structure RawNpm where
  versions : Option (List JVal)
  distTags : Option (List (String × JVal))
deriving DecidableEq, Repr

/-- Decoded `https://registry.npmjs.org/gitbook` body: `versions` is a
JSON object (its keys are taken), `dist-tags` maps tags to strings. -/
structure RawHttp where
  versions : List String
  distTags : List (String × String)
deriving DecidableEq, Repr

structure AvailableVersions where
  Versions : List String
  Tags : List (String × String)
deriving DecidableEq, Repr

/-- `registry.fetchFromNPM`: decode, filter versions and tags through
`tags.IsValid`, exchange-sort the versions, and treat an empty filtered
version list as this tier's own error. -/
def fetchFromNPM (raw : Option RawNpm) : Except String AvailableVersions :=
  match raw with
  | none => .error "npm command failed"
  | some data =>
    match data.versions with
    | none => .error "invalid npm response format"
    | some versionsRaw =>
      let distTagsRaw := data.distTags.getD []
      let validVersions := versionsRaw.filterMap fun v =>
        match v with
        | .str version => if IsValid version GITBOOK_VERSION then some version else none
        | .other => none
      let validVersions := goSort tagsSort validVersions
      let validTags := distTagsRaw.filterMap fun tv =>
        match tv.2 with
        | .str version =>
          if IsValid version GITBOOK_VERSION then some (tv.1, version) else none
        | .other => none
      if validVersions.isEmpty then .error "no valid version on the NPM registry"
      else .ok ⟨validVersions, validTags⟩

/-- `registry.fetchFromHTTP`: same post-processing over the HTTP JSON
document. -/
def fetchFromHTTP (raw : Option RawHttp) : Except String AvailableVersions :=
  match raw with
  | none => .error "http request failed"
  | some data =>
    let validVersions := data.versions.filter fun version =>
      IsValid version GITBOOK_VERSION
    let validVersions := goSort tagsSort validVersions
    let validTags := data.distTags.filter fun tv => IsValid tv.2 GITBOOK_VERSION
    if validVersions.isEmpty then .error "no valid version on the NPM registry"
    else .ok ⟨validVersions, validTags⟩

/-- `registry.Versions`: npm tier first; on any error from it, the HTTP
tier's result is returned instead. -/
def registryVersions (npm : Option RawNpm) (http : Option RawHttp) :
    Except String AvailableVersions :=
  match fetchFromNPM npm with
  | .ok result => .ok result
  | .error _ => fetchFromHTTP http

/-- `registry.Resolve`: map a tag through the catalog's tag table, then
return the first listed version satisfying the condition. -/
def registryResolve (npm : Option RawNpm) (http : Option RawHttp) (version : String) :
    Except String String :=
  match registryVersions npm http with
  | .error e => .error e
  | .ok available =>
    let version := match available.Tags.lookup version with
      | some resolvedVersion => resolvedVersion
      | none => version
    match available.Versions.find? (fun v => Satisfies v version false) with
    | some v => .ok v
    | none => .error ("invalid version or tag " ++ version)

/-- The whole external world the engine touches: the store root, the two
registry tiers, and what `npm install --prefix <tmp> gitbook@v` leaves
in the scratch directory (`none`: the subprocess failed or the scratch
manifest was unreadable). -/
structure World where
  store : Store
  npm : Option RawNpm
  http : Option RawHttp
  npmInstall : String → Option PkgJson

/-- `registry.Install`: resolve, install into a scratch directory, read
back the scratch manifest, verify package name and version validity,
then replace the store entry named by the manifest version with the
copied artifact tree. The scratch directory is removed on every path
and the store is untouched on every failure path. -/
def registryInstall (w : World) (version : String) : Except String String × Store :=
  match registryResolve w.npm w.http version with
  | .error e => (.error e, w.store)
  | .ok resolvedVersion =>
    match w.npmInstall resolvedVersion with
    | none => (.error "failed to install gitbook", w.store)
    | some packageJson =>
      if packageJson.name ≠ "gitbook" then
        (.error "installed package is not gitbook", w.store)
      else if IsValid packageJson.version GITBOOK_VERSION = false then
        (.error ("invalid GitBook version, should satisfy " ++ GITBOOK_VERSION), w.store)
      else
        (.ok packageJson.version,
          storeErase w.store packageJson.version
            ++ [(packageJson.version, .dir (some packageJson) true)])

/-! ## The `manager` orchestration layer -/

/-- `manager.EnsureVersion`. The `book.json` read (`BookVersion`) is the
`bookVersion` parameter. Besides the result and final world, the model
returns how many times `registry.Install` and `local.Resolve` ran, so
the retry discipline is part of the statement. -/
def EnsureVersion (w : World) (bookVersion version : String) (install : Bool) :
    (Except String VersionInfo × World) × Nat × Nat :=
  let version := if version = "" then bookVersion else version
  match localResolve w.store version with
  | .ok resolved => ((.ok resolved, w), 0, 1)
  | .error e =>
    if _h : install = false then ((.error e, w), 0, 1)
    else
      match registryInstall w version with
      | (.error installErr, _) => ((.error installErr, w), 1, 1)
      | (.ok _, store1) =>
        let r := EnsureVersion { w with store := store1 } bookVersion version false
        ((r.1.1, r.1.2), r.2.1 + 1, r.2.2 + 1)
termination_by (if install then 1 else 0)
decreasing_by simp_all

/-- Install-and-replace tail of `manager.UpdateVersion`: install the
remote version, then best-effort remove the entry named by the current
entry's `Tag` field (the error, if any, is discarded). -/
def updateInstallStep (w : World) (remoteVersion : String)
    (currentV : Option VersionInfo) : Except String String × World :=
  match registryInstall w remoteVersion with
  | (.error e, _) => (.error e, w)
  | (.ok installedVersion, store1) =>
    let store2 := match currentV with
      | some c =>
        match localRemove store1 c.Tag with
        | .ok s => s
        | .error _ => store1
      | none => store1
    (.ok installedVersion, { w with store := store2 })

/-- `manager.UpdateVersion`: default the tag, read the head of the local
list as the current entry, query the registry, look the tag up, skip
the update unless the remote version compares strictly newer
(`tags.Sort < 0`) than the current entry's version, else install and
best-effort remove. -/
def UpdateVersion (w : World) (tag : String) : Except String String × World :=
  let tag := if tag = "" then "latest" else tag
  let versions := localVersions w.store
  let currentV := versions.head?
  match registryVersions w.npm w.http with
  | .error e => (.error e, w)
  | .ok available =>
    match available.Tags.lookup tag with
    | none => (.error ("tag doesn't exist: " ++ tag), w)
    | some remoteVersion =>
      match currentV with
      | some c =>
        if tagsSort remoteVersion c.Version ≥ 0 then (.ok "", w)
        else updateInstallStep w remoteVersion currentV
      | none => updateInstallStep w remoteVersion currentV

/-- The store entry `Link` writes. -/
def linkEntry (ext : String → Option PkgJson) (folder cwd : String) : FSEntry :=
  .symlink (goAbs cwd folder) (ext (goAbs cwd folder))

/-- The store `Link` leaves behind on success. -/
def linkResult (ext : String → Option PkgJson) (store : Store) (name folder cwd : String) :
    Store :=
  storeErase store name ++ [(name, linkEntry ext folder cwd)]

/-- The world of the C5 run: versions 2.0.0 and 3.0.0 installed, the
remote `latest` tag at 4.0.0, and a registry that installs 4.0.0. -/
def c5World : World where
  store := [("2.0.0", .dir (some ⟨"gitbook", "2.0.0"⟩) true),
            ("3.0.0", .dir (some ⟨"gitbook", "3.0.0"⟩) true)]
  npm := some ⟨some [.str "2.0.0", .str "3.0.0", .str "4.0.0"],
               some [("latest", .str "4.0.0")]⟩
  http := none
  npmInstall := fun v => if v = "4.0.0" then some ⟨"gitbook", "4.0.0"⟩ else none

/-- The world of the C8 run: version 2.0.0 installed and the remote
`latest` tag also at 2.0.0. -/
def c8World : World where
  store := [("2.0.0", .dir (some ⟨"gitbook", "2.0.0"⟩) true)]
  npm := some ⟨some [.str "2.0.0"], some [("latest", .str "2.0.0")]⟩
  http := none
  npmInstall := fun _ => none

/-- The world of the C7 run: empty store; the registry offers `5.0.0`
but the install actually ships `5.0.1`, so the retry still misses. -/
def c7World : World where
  store := []
  npm := some ⟨some [.str "5.0.0"], some []⟩
  http := none
  npmInstall := fun v => if v = "5.0.0" then some ⟨"gitbook", "5.0.1"⟩ else none

/-! ## Canonical prerelease identifiers

The official semver grammar forbids leading zeroes in numeric prerelease
identifiers. Masterminds' lenient `NewVersion` accepts them (e.g.
`1.0.0-01`), and on exactly those inputs its comparison is not
antisymmetric: `ParseUint` reads distinct strings as the same number.
An identifier is *canonical* when, if `ParseUint` reads it as a number,
it is that number's standard decimal rendering — i.e. it has no leading
zero. (Sign-prefixed identifiers and digit strings of `2^64` or more
fail `ParseUint` and are compared as alphanumerics, which needs no
carve-out.) -/

/-- A prerelease identifier that is either non-numeric (per `ParseUint`)
or canonically rendered. -/
def canonicalIdentB (p : List Char) : Bool :=
  match parseUint64 p with
  | some n => p = (Nat.repr n).data
  | none => true

/-- All dot-separated identifiers of a prerelease string are canonical. -/
def canonicalPreB (pre : List Char) : Bool :=
  (splitOnCh '.' pre).all canonicalIdentB

/-- A string is canonical when it either fails to parse as a version or
parses to one with a canonical prerelease (tags and arbitrary
unparseable strings included; official-spec-valid versions included). -/
def canonicalStrB (s : String) : Bool :=
  match newVersionL s.data with
  | some v => canonicalPreB v.pre
  | none => true

/-! ## Sanity checks of the embedding on concrete inputs -/

example : NewVersion "1.2.3" = some ⟨1, 2, 3, [], []⟩ := by decide
example : NewVersion "latest" = none := by decide
example : NewVersion "v2.0.0-beta.1+x86" =
    some ⟨2, 0, 0, "beta.1".data, "x86".data⟩ := by decide
example : NewVersion "1.2.3.4" = none := by decide
example : NewVersion "1.x" = none := by decide
example : tagsSort "2.0.0" "1.0.0" = -1 := by decide
example : tagsSort "1.0.0" "2.0.0" = 1 := by decide
example : tagsSort "latest" "2.0.0" = -1 := by decide
example : tagsSort "1.0.0-01" "1.0.0-1" = 1 := by decide
example : tagsSort "1.0.0-1" "1.0.0-01" = 1 := by decide
example : tagsSort "1.0.0--99" "1.0.0-5" = -1 := by decide
example : tagsSort "1.0.0-5" "1.0.0--99" = 1 := by decide
example : canonicalStrB "1.0.0--99" = true := by decide
example : canonicalStrB "1.0.0-09223372036854775809" = false := by decide
example : GetTag "2.0.0-beta.3" = "beta" := by decide
example : GetTag "2.0.0" = "latest" := by decide
example : (NewConstraint ">1.x.x").isSome = true := by decide
example : IsValid "2.0.0" ">1.x.x" = true := by decide
example : IsValid "1.9.0" ">1.x.x" = false := by decide
example : IsValid "1.0.0" ">1.x.x" = false := by decide
example : IsValid "2.0.0-beta.1" ">1.x.x" = false := by decide
example : IsValid "latest" "][junk" = true := by decide
example : IsValid "not-a-version" ">1.x.x" = false := by decide
example : NewConstraint "][junk" = none := by decide
example : Satisfies "3.0.0" "3.0.0" false = true := by decide
example : Satisfies "2.0.0" "3.0.0" false = false := by decide
example : Satisfies "2.0.0-beta.1" "beta" true = true := by decide
example : Satisfies "latest" "*" false = true := by decide
example : (NewConstraint ">=1.2.3, <2.0.0").isSome = true := by decide
example : (NewConstraint "1.2.3 - 2.0.0").isSome = true := by decide

theorem charListLt_antisymm (a b : List Char) (h : a ≠ b) :
    charListLt a b = !charListLt b a := by
  induction a generalizing b with
  | nil =>
    cases b with
    | nil => exact absurd rfl h
    | cons y ys => simp [charListLt]
  | cons x xs ih =>
    cases b with
    | nil => simp [charListLt]
    | cons y ys =>
      rcases Nat.lt_trichotomy x.toNat y.toNat with hlt | heq | hgt
      · simp [charListLt, hlt, Nat.lt_asymm hlt]
      · have hxy : x = y := Char.ext (UInt32.ext heq)
        subst hxy
        have hxs : xs ≠ ys := fun hh => h (by rw [hh])
        simp [charListLt, ih ys hxs]
      · simp [charListLt, hgt, Nat.lt_asymm hgt]

theorem canonical_inj {p q : List Char} {a b : Nat}
    (hp : canonicalIdentB p = true) (hq : canonicalIdentB q = true)
    (hpa : parseUint64 p = some a) (hqb : parseUint64 q = some b)
    (hne : p ≠ q) : a ≠ b := by
  intro hab
  unfold canonicalIdentB at hp hq
  rw [hpa] at hp
  rw [hqb] at hq
  simp at hp hq
  exact hne (by rw [hp, hq, hab])

theorem comparePrePart_antisymm (s o : List Char)
    (hs : canonicalIdentB s = true) (ho : canonicalIdentB o = true) :
    comparePrePart s o = -(comparePrePart o s) := by
  by_cases hso : s = o
  · subst hso; simp [comparePrePart]
  · have hos : o ≠ s := fun hh => hso hh.symm
    by_cases hse : s = []
    · subst hse
      have hoe : o ≠ [] := fun hh => hso hh.symm
      simp [comparePrePart, hso, hos, hoe]
    · by_cases hoe : o = []
      · subst hoe
        simp [comparePrePart, hso, hos, hse]
      · rw [comparePrePart, comparePrePart]
        simp only [if_neg hso, if_neg hos, if_neg hse, if_neg hoe]
        rcases hps : parseUint64 s with _ | sv <;> rcases hpo : parseUint64 o with _ | ov
        · simp only []
          have hlt := charListLt_antisymm o s hos
          by_cases hc : charListLt o s = true
          · have hrev : charListLt s o = false := by
              rw [hc] at hlt
              cases hrev : charListLt s o with
              | false => rfl
              | true => rw [hrev] at hlt; simp at hlt
            simp [hc, hrev]
          · have hc' : charListLt o s = false := by simpa using hc
            have hrev : charListLt s o = true := by
              rw [hc'] at hlt
              cases hrev : charListLt s o with
              | false => rw [hrev] at hlt; simp at hlt
              | true => rfl
            simp [hc', hrev]
        · simp
        · simp
        · have hne := canonical_inj hs ho hps hpo hso
          simp only []
          rcases Nat.lt_trichotomy sv ov with hlt | heq | hgt
          · simp [Nat.not_lt.mpr (Nat.le_of_lt hlt), hlt, Nat.lt_asymm hlt]
          · exact absurd heq hne
          · simp [hgt, Nat.lt_asymm hgt, Nat.not_lt.mpr (Nat.le_of_lt hgt)]

theorem comparePrePart_empty (o : List Char) :
    comparePrePart [] o = -(comparePrePart o []) := by
  by_cases hoe : o = []
  · subst hoe; simp [comparePrePart]
  · have hne : ([] : List Char) ≠ o := fun hh => hoe hh.symm
    simp [comparePrePart, hne, hoe]

theorem comparePreTails (l : List (List Char)) :
    comparePreTailO l = -(comparePreTailS l) := by
  induction l with
  | nil => simp [comparePreTailO, comparePreTailS]
  | cons x xs ih =>
    rw [comparePreTailO, comparePreTailS]
    have hx := comparePrePart_empty x
    by_cases hz : comparePrePart x [] = 0
    · rw [hz] at hx
      simp [hz, hx, ih]
    · have hz' : comparePrePart [] x ≠ 0 := by
        rw [hx]; simpa using hz
      simp [hz, hz', hx]

theorem comparePreChunks_nil (l : List (List Char)) :
    comparePreChunks l [] = comparePreTailS l := by
  cases l with
  | nil => simp [comparePreChunks, comparePreTailO, comparePreTailS]
  | cons x xs => rw [comparePreChunks, comparePreTailS]

theorem comparePreChunks_antisymm (ss os : List (List Char))
    (hs : ss.all canonicalIdentB = true) (ho : os.all canonicalIdentB = true) :
    comparePreChunks ss os = -(comparePreChunks os ss) := by
  induction ss generalizing os with
  | nil =>
    rw [comparePreChunks_nil]
    show comparePreTailO os = _
    rw [comparePreTails]
  | cons x xs ih =>
    cases os with
    | nil =>
      rw [comparePreChunks_nil]
      show _ = -comparePreTailO (x :: xs)
      rw [comparePreTails]
      simp
    | cons y ys =>
      simp only [List.all_cons, Bool.and_eq_true] at hs ho
      rw [comparePreChunks, comparePreChunks]
      have hxy := comparePrePart_antisymm x y hs.1 ho.1
      by_cases hz : comparePrePart x y = 0
      · have hz2 : comparePrePart y x = 0 := by
          rw [hz] at hxy; omega
        simp only [hz, hz2, ne_eq, not_true_eq_false, if_false]
        simpa using ih ys hs.2 ho.2
      · have hz2 : comparePrePart y x ≠ 0 := by
          intro hh; rw [hh] at hxy; simp at hxy; exact hz hxy
        simp [hz, hz2, hxy]

theorem comparePrePart_refl (s : List Char) : comparePrePart s s = 0 := by
  simp [comparePrePart]

theorem comparePreChunks_refl (l : List (List Char)) : comparePreChunks l l = 0 := by
  induction l with
  | nil => simp [comparePreChunks, comparePreTailO]
  | cons x xs ih => simp [comparePreChunks, comparePrePart_refl, ih]

theorem compareSegment_antisymm (m n : Nat) :
    compareSegment m n = -(compareSegment n m) := by
  unfold compareSegment
  rcases Nat.lt_trichotomy m n with h | h | h
  · simp [h, Nat.lt_asymm h, Nat.not_lt.mpr (Nat.le_of_lt h)]
  · simp [h, Nat.lt_irrefl]
  · simp [h, Nat.lt_asymm h, Nat.not_lt.mpr (Nat.le_of_lt h)]

theorem compareSegment_refl (m : Nat) : compareSegment m m = 0 := by
  simp [compareSegment]

theorem goCompare_antisymm (a b : GoVersion)
    (ha : canonicalPreB a.pre = true) (hb : canonicalPreB b.pre = true) :
    GoCompare a b = -(GoCompare b a) := by
  unfold GoCompare
  have hmaj := compareSegment_antisymm a.major b.major
  by_cases h1 : compareSegment a.major b.major = 0
  · have h1' : compareSegment b.major a.major = 0 := by rw [h1] at hmaj; omega
    have hmin := compareSegment_antisymm a.minor b.minor
    by_cases h2 : compareSegment a.minor b.minor = 0
    · have h2' : compareSegment b.minor a.minor = 0 := by rw [h2] at hmin; omega
      have hpat := compareSegment_antisymm a.patch b.patch
      by_cases h3 : compareSegment a.patch b.patch = 0
      · have h3' : compareSegment b.patch a.patch = 0 := by rw [h3] at hpat; omega
        simp only [h1, h1', h2, h2', h3, h3', ne_eq, not_true_eq_false, if_false]
        by_cases hap : a.pre = []
        · by_cases hbp : b.pre = []
          · simp [hap, hbp]
          · simp [hap, hbp]
        · by_cases hbp : b.pre = []
          · simp [hap, hbp]
          · simp only [hap, hbp, false_and, and_false, if_false]
            exact comparePreChunks_antisymm _ _ ha hb
      · have h3' : compareSegment b.patch a.patch ≠ 0 := by
          intro hh; rw [hh] at hpat; simp at hpat; exact h3 hpat
        simp [h1, h1', h2, h2', h3, h3', hpat]
    · have h2' : compareSegment b.minor a.minor ≠ 0 := by
        intro hh; rw [hh] at hmin; simp at hmin; exact h2 hmin
      simp [h1, h1', h2, h2', hmin]
  · have h1' : compareSegment b.major a.major ≠ 0 := by
      intro hh; rw [hh] at hmaj; simp at hmaj; exact h1 hmaj
    simp [h1, h1', hmaj]

theorem goCompare_refl (a : GoVersion) : GoCompare a a = 0 := by
  unfold GoCompare
  by_cases hap : a.pre = []
  · simp [compareSegment_refl, hap]
  · simp [compareSegment_refl, hap, comparePrerelease, comparePreChunks_refl]

theorem isTag_newVersion_none (s : String) (h : IsTag s = true) :
    newVersionL s.data = none := by
  simp only [IsTag, ALLOWED_TAGS, List.any_cons, List.any_nil, Bool.or_eq_true,
    decide_eq_true_eq, Bool.or_false] at h
  rcases h with h | h | h | h <;> (rw [← h]; decide)

theorem newVersion_some_notTag (s : String) (v : GoVersion)
    (h : newVersionL s.data = some v) : IsTag s = false := by
  cases ht : IsTag s with
  | false => rfl
  | true => rw [isTag_newVersion_none s ht] at h; cases h

theorem tagsSort_refl (a : String) : tagsSort a a = 0 := by
  unfold tagsSort
  by_cases ht : IsTag a
  · simp [ht]
  · simp only [ht, Bool.false_and, if_false, Bool.and_self]
    cases hp : newVersionL a.data with
    | none => simp
    | some va => simp [GoLessThan, goCompare_refl]

theorem tagsSort_antisymm (a b : String)
    (ha : canonicalStrB a = true) (hb : canonicalStrB b = true) :
    tagsSort a b = -(tagsSort b a) := by
  unfold tagsSort
  by_cases hta : IsTag a <;> by_cases htb : IsTag b
  · simp only [hta, htb, Bool.and_self, if_true]
    rcases Int.lt_trichotomy (getTagIndex a) (getTagIndex b) with h | h | h
    · simp [h, Int.lt_asymm h, Int.not_lt.mpr (Int.le_of_lt h)]
    · simp [h, Int.lt_irrefl]
    · simp [h, Int.lt_asymm h, Int.not_lt.mpr (Int.le_of_lt h)]
  · simp [hta, htb]
  · simp [hta, htb]
  · simp only [hta, htb, Bool.and_false, Bool.false_and, if_false]
    unfold canonicalStrB at ha hb
    cases hpa : newVersionL a.data with
    | none =>
      cases hpb : newVersionL b.data with
      | none => simp
      | some vb => simp
    | some va =>
      cases hpb : newVersionL b.data with
      | none => simp
      | some vb =>
        rw [hpa] at ha
        rw [hpb] at hb
        have hcmp := goCompare_antisymm va vb ha hb
        simp only [GoLessThan]
        rcases Int.lt_trichotomy (GoCompare va vb) 0 with h | h | h
        · have h2 : ¬ GoCompare vb va < 0 := by omega
          simp [h, h2]
        · have h2 : ¬ GoCompare vb va < 0 := by omega
          simp [h, h2, Int.lt_irrefl]
        · have h2 : GoCompare vb va < 0 := by omega
          have h3 : ¬ GoCompare va vb < 0 := by omega
          simp [h2, h3]

/-! ## Claims about the comparator (`tags.Sort`) and validity (`tags.IsValid`)

Convention anchored by the specification's tag rule and its code: the
comparator returns `-1` when its first argument is ranked *newer*
(a tag against a version yields `-1`, and for parseable versions the
semantically greater one yields `-1`). -/

/-- C1: for valid semantic versions `v1` strictly greater than `v2`
(both parse, both have canonical prerelease identifiers as the official
semver grammar requires of a *valid* version, and the library comparison
reports `v1` greater), `tags.Sort` ranks `v1` newer (`-1`), and
comparing a version with itself reports equal (`0`). -/
theorem c1_compare_ranks_newer (v1 v2 : String) (a b : GoVersion)
    (h1 : NewVersion v1 = some a) (h2 : NewVersion v2 = some b)
    (hc1 : canonicalPreB a.pre = true) (hc2 : canonicalPreB b.pre = true)
    (hgt : GoCompare a b = 1) :
    tagsSort v1 v2 = -1 ∧ tagsSort v1 v1 = 0 := by
  have h1' : newVersionL v1.data = some a := h1
  have h2' : newVersionL v2.data = some b := h2
  have ht1 := newVersion_some_notTag v1 a h1'
  have ht2 := newVersion_some_notTag v2 b h2'
  constructor
  · have hba : GoCompare b a = -1 := by
      have := goCompare_antisymm a b hc1 hc2
      omega
    unfold tagsSort
    simp [ht1, ht2, h1', h2', GoLessThan, hgt, hba]
  · exact tagsSort_refl v1

theorem c1_compare_ranks_newer_witness :
    NewVersion "2.0.0" = some ⟨2, 0, 0, [], []⟩ ∧
    tagsSort "2.0.0" "1.5.0" = -1 ∧ tagsSort "2.0.0" "2.0.0" = 0 :=
  ⟨by decide,
    c1_compare_ranks_newer "2.0.0" "1.5.0" ⟨2, 0, 0, [], []⟩ ⟨1, 5, 0, [], []⟩
      (by decide) (by decide) (by decide) (by decide) (by decide)⟩

/-- C3: a symbolic tag compares as newer (`-1`) than any non-tag
string, semantic versions in particular. -/
theorem c3_tag_always_newer (t v : String)
    (ht : IsTag t = true) (hv : IsTag v = false) :
    tagsSort t v = -1 := by
  unfold tagsSort
  simp [ht, hv]

theorem c3_tag_always_newer_witness :
    IsTag "latest" = true ∧ tagsSort "latest" "2.0.0" = -1 :=
  ⟨by decide, c3_tag_always_newer "latest" "2.0.0" (by decide) (by decide)⟩

/-- C9: `tags.IsValid` is a total boolean function (its Lean type), and
for a non-tag version string an unparseable version or an unparseable
constraint makes it return `false` rather than fail. (A tag version
returns `true` before either string is parsed: "tags are always
valid".) -/
theorem c9_isvalid_fail_closed (version constraint : String)
    (hnt : IsTag version = false)
    (h : NewVersion version = none ∨ NewConstraint constraint = none) :
    IsValid version constraint = false := by
  unfold IsValid
  rcases h with h | h
  · simp [hnt, h]
  · cases hp : NewVersion version with
    | none => simp [hnt, hp]
    | some v => simp [hnt, hp, h]

theorem c9_isvalid_fail_closed_witness :
    IsValid "not-a-version" ">1.x.x" = false ∧ IsValid "2.0.0" "][junk" = false :=
  ⟨c9_isvalid_fail_closed "not-a-version" ">1.x.x" (by decide) (Or.inl (by decide)),
    c9_isvalid_fail_closed "2.0.0" "][junk" (by decide) (Or.inr (by decide))⟩

/-- C10 fails as stated: on the two Masterminds-parseable versions
`1.0.0-01` and `1.0.0-1` (a non-canonical numeric prerelease
identifier), `tags.Sort` answers `1` in both directions, so it is not
the negation of its transpose. -/
theorem c10_counterexample :
    ¬ tagsSort "1.0.0-01" "1.0.0-1" = -tagsSort "1.0.0-1" "1.0.0-01" := by
  decide

/-- C10 amended: `tags.Sort` is antisymmetric on every pair of strings
that do not parse to a version with a non-canonical numeric prerelease
identifier — all tags, all unparseable strings, and all versions valid
per the official semver grammar — and `Sort a a = 0` for every string
whatsoever. -/
theorem c10_sort_antisymmetric (a b : String)
    (ha : canonicalStrB a = true) (hb : canonicalStrB b = true) :
    tagsSort a b = -tagsSort b a ∧ tagsSort a a = 0 :=
  ⟨tagsSort_antisymm a b ha hb, tagsSort_refl a⟩

theorem c10_sort_antisymmetric_witness :
    tagsSort "2.0.0" "latest" = -tagsSort "latest" "2.0.0" ∧
    tagsSort "2.0.0" "2.0.0" = 0 :=
  c10_sort_antisymmetric "2.0.0" "latest" (by decide) (by decide)

/-! ## Store lemmas for the `Link` claim -/

theorem storeErase_lookup (s : Store) (n : String) : (storeErase s n).lookup n = none := by
  induction s with
  | nil => rfl
  | cons p t ih =>
    rcases p with ⟨k, v⟩
    unfold storeErase at ih ⊢
    rw [List.filter_cons]
    by_cases hk : k = n
    · simp only [hk, beq_self_eq_true, Bool.not_true, Bool.false_eq_true, if_false]
      exact ih
    · have hk' : (k == n) = false := beq_false_of_ne hk
      have hk2 : (n == k) = false := beq_false_of_ne (Ne.symm hk)
      simp only [hk', Bool.not_false, if_true, List.lookup, hk2]
      exact ih

theorem lookup_none_erase (s : Store) (n : String) (h : s.lookup n = none) :
    storeErase s n = s := by
  induction s with
  | nil => rfl
  | cons p t ih =>
    rcases p with ⟨k, v⟩
    by_cases hk : n = k
    · simp [List.lookup, hk] at h
    · have hk2 : (n == k) = false := beq_false_of_ne hk
      simp only [List.lookup, hk2] at h
      have hk' : (k == n) = false := beq_false_of_ne (Ne.symm hk)
      unfold storeErase
      rw [List.filter_cons]
      simp only [hk', Bool.not_false, if_true]
      rw [← storeErase, ih h]

theorem lookup_none_keyFilter (s : Store) (n : String) (h : s.lookup n = none) :
    s.filter (fun p => p.1 == n) = [] := by
  induction s with
  | nil => rfl
  | cons p t ih =>
    rcases p with ⟨k, v⟩
    by_cases hk : n = k
    · simp [List.lookup, hk] at h
    · have hk2 : (n == k) = false := beq_false_of_ne hk
      simp only [List.lookup, hk2] at h
      have hk' : (k == n) = false := beq_false_of_ne (Ne.symm hk)
      rw [List.filter_cons]
      simp only [hk', Bool.false_eq_true, if_false]
      exact ih h

theorem lookup_append_of_none (s rest : Store) (n : String) (h : s.lookup n = none) :
    (s ++ rest).lookup n = rest.lookup n := by
  induction s with
  | nil => rfl
  | cons p t ih =>
    rcases p with ⟨k, v⟩
    by_cases hk : n = k
    · simp [List.lookup, hk] at h
    · have hk2 : (n == k) = false := beq_false_of_ne hk
      simp only [List.lookup, hk2] at h
      simp only [List.cons_append, List.lookup, hk2]
      exact ih h

theorem storeErase_keyFilter (s : Store) (n : String) :
    (storeErase s n).filter (fun p => p.1 == n) = [] :=
  lookup_none_keyFilter _ _ (storeErase_lookup s n)

theorem storeErase_idem (s : Store) (n : String) :
    storeErase (storeErase s n) n = storeErase s n :=
  lookup_none_erase _ _ (storeErase_lookup s n)

/-! ## Claims about `local.Link`, the registry client, and `local.Versions` -/

/-- C6 fails as stated: a pre-existing *real* store directory (an
installed version: manifest plus artifact files) is not removed —
`os.Remove` fails on a non-empty directory, so `Link` errors and the
old entry stays. -/
theorem c6_counterexample :
    Link (fun _ => none) [("2.0.0", .dir (some ⟨"gitbook", "2.0.0"⟩) true)]
      "2.0.0" "/work/gb" "/home" = .error "directory not empty" := by
  decide

/-- C6 amended: for non-empty `name` and `targetDir`, when the store has
no entry at `name`, or one `os.Remove` can delete (a symlink or an
empty directory), `Link` removes it and symlinks `name` to the absolute
target; the result has exactly one entry named `name` and `Link` run
again with identical arguments returns the same store. A pre-existing
non-empty real directory instead makes `Link` fail (see the
counterexample). -/
theorem c6_link_last_write_wins (ext : String → Option PkgJson) (store : Store)
    (name folder cwd : String)
    (hname : name ≠ "") (hfolder : folder ≠ "")
    (hremovable : ∀ e, store.lookup name = some e → osRemoveOk e = true) :
    Link ext store name folder cwd = .ok (linkResult ext store name folder cwd) ∧
    ((linkResult ext store name folder cwd).filter (fun p => p.1 == name)).length = 1 ∧
    Link ext (linkResult ext store name folder cwd) name folder cwd =
      .ok (linkResult ext store name folder cwd) := by
  refine ⟨?_, ?_, ?_⟩
  · unfold Link
    rw [if_neg hname, if_neg hfolder]
    cases hl : store.lookup name with
    | none =>
      unfold linkResult linkEntry
      rw [lookup_none_erase store name hl]
    | some e =>
      have he := hremovable e hl
      simp [he, linkResult, linkEntry]
  · unfold linkResult
    rw [List.filter_append, storeErase_keyFilter]
    simp
  · unfold Link
    rw [if_neg hname, if_neg hfolder]
    have hl2 : (linkResult ext store name folder cwd).lookup name =
        some (linkEntry ext folder cwd) := by
      unfold linkResult
      rw [lookup_append_of_none _ _ _ (storeErase_lookup store name)]
      simp [List.lookup]
    rw [hl2]
    have herase : storeErase (linkResult ext store name folder cwd) name =
        storeErase store name := by
      unfold linkResult
      have hsplit : storeErase (storeErase store name ++ [(name, linkEntry ext folder cwd)]) name
          = storeErase (storeErase store name) name
            ++ storeErase [(name, linkEntry ext folder cwd)] name := by
        unfold storeErase
        exact List.filter_append ..
      have hsingle : storeErase [(name, linkEntry ext folder cwd)] name = [] := by
        unfold storeErase
        simp
      rw [hsplit, storeErase_idem, hsingle, List.append_nil]
    have hok : osRemoveOk (linkEntry ext folder cwd) = true := rfl
    simp only [hok, if_true]
    rw [herase]
    unfold linkResult linkEntry
    simp

theorem c6_link_last_write_wins_witness :
    Link (fun _ => none) [] "mybook" "/work/gb" "/home" =
      .ok [("mybook", .symlink "/work/gb" none)] ∧
    Link (fun _ => none) [("mybook", FSEntry.symlink "/work/gb" none)]
      "mybook" "/work/gb" "/home" = .ok [("mybook", .symlink "/work/gb" none)] := by
  have h := c6_link_last_write_wins (fun _ => none) [] "mybook" "/work/gb" "/home"
    (by decide) (by decide) (fun e he => by simp [List.lookup] at he)
  have hres : linkResult (fun _ => none) [] "mybook" "/work/gb" "/home" =
      [("mybook", FSEntry.symlink "/work/gb" none)] := by decide
  rw [hres] at h
  exact ⟨h.1, h.2.2⟩

/-- C4 fails as stated: when the npm tier decodes fine but its filtered
version list is empty, `fetchFromNPM` reports that as its own error,
and `registry.Versions` *does* fall back to the HTTP tier — here the
result is the HTTP catalog, not the hard "no valid version" error. -/
theorem c4_counterexample :
    fetchFromNPM (some ⟨some [], some []⟩) =
      .error "no valid version on the NPM registry" ∧
    registryVersions (some ⟨some [], some []⟩) (some ⟨["2.0.0"], []⟩) =
      .ok ⟨["2.0.0"], []⟩ := by
  decide

/-- C4 amended: the fallback tier is attempted whenever the primary npm
tier returns *any* error — including its "no valid version" error for
an empty filtered list — and an empty filtered list after the fallback
tier is the hard error. -/
theorem c4_fallback_on_any_primary_error :
    (∀ (npm : Option RawNpm) (http : Option RawHttp) (e : String),
      fetchFromNPM npm = .error e → registryVersions npm http = fetchFromHTTP http) ∧
    (∀ data : RawHttp,
      (goSort tagsSort (data.versions.filter fun version =>
        IsValid version GITBOOK_VERSION)).isEmpty = true →
      fetchFromHTTP (some data) = .error "no valid version on the NPM registry") := by
  constructor
  · intro npm http e h
    unfold registryVersions
    rw [h]
  · intro data h
    unfold fetchFromHTTP
    simp [h]

theorem c4_fallback_on_any_primary_error_witness :
    registryVersions (some ⟨some [], some []⟩) (some ⟨[], []⟩) =
      fetchFromHTTP (some ⟨[], []⟩) ∧
    fetchFromHTTP (some ⟨[], []⟩) = .error "no valid version on the NPM registry" :=
  ⟨c4_fallback_on_any_primary_error.1 (some ⟨some [], some []⟩) (some ⟨[], []⟩)
      "no valid version on the NPM registry" (by decide),
    c4_fallback_on_any_primary_error.2 ⟨[], []⟩ (by decide)⟩

/-- C2 fails on the code: with installed versions `2.0.0` and `3.0.0`,
`local.Versions` returns `2.0.0` first although the comparator itself
ranks `3.0.0` newer (`Sort "3.0.0" "2.0.0" = -1`): the exchange sort
swaps on `Sort < 0`, which moves the *older* element to the front, so
the list comes back oldest-first and the head — the entry
`UpdateVersion`'s own comment calls "latest" — is the oldest. -/
theorem c2_head_is_oldest :
    (localVersions [("2.0.0", .dir (some ⟨"gitbook", "2.0.0"⟩) true),
        ("3.0.0", .dir (some ⟨"gitbook", "3.0.0"⟩) true)]).map VersionInfo.Version =
      ["2.0.0", "3.0.0"] ∧
    (localVersions [("3.0.0", .dir (some ⟨"gitbook", "3.0.0"⟩) true),
        ("2.0.0", .dir (some ⟨"gitbook", "2.0.0"⟩) true)]).map VersionInfo.Version =
      ["2.0.0", "3.0.0"] ∧
    tagsSort "3.0.0" "2.0.0" = -1 := by
  decide

/-- C5 fails on the code: updating to the strictly newer remote 4.0.0
succeeds, but (a) the "current" entry the code reads is the head of an
oldest-first list (2.0.0, not the newest 3.0.0), and (b) the removal is
attempted under the entry's release-channel `Tag` (`"latest"`), not its
name, so it fails, is ignored, and *both* previous entries survive. -/
theorem c5_previous_entry_survives :
    (UpdateVersion c5World "latest").1 = .ok "4.0.0" ∧
    (localVersions c5World.store).head?.map VersionInfo.Version = some "2.0.0" ∧
    (localVersions c5World.store).head?.map VersionInfo.Tag = some "latest" ∧
    (UpdateVersion c5World "latest").2.store =
      [("2.0.0", .dir (some ⟨"gitbook", "2.0.0"⟩) true),
       ("3.0.0", .dir (some ⟨"gitbook", "3.0.0"⟩) true),
       ("4.0.0", .dir (some ⟨"gitbook", "4.0.0"⟩) true)] := by
  refine ⟨by decide, by decide, by decide, by decide⟩

/-! ## Claims about the orchestration layer (`manager`) -/

/-- C8: with a local entry present (the head of the local list) and the
remote version named by the tag not strictly newer than that entry's
version (`tags.Sort ≥ 0`, equality included), `UpdateVersion` returns
the empty-string no-update signal with no error, and the world — store
included — is left exactly as it was: no install, no removal. -/
theorem c8_no_update_when_not_newer (w : World) (tag : String)
    (c : VersionInfo) (rest : List VersionInfo) (available : AvailableVersions)
    (remoteVersion : String)
    (htag : tag ≠ "")
    (hlocal : localVersions w.store = c :: rest)
    (hreg : registryVersions w.npm w.http = .ok available)
    (hlookup : available.Tags.lookup tag = some remoteVersion)
    (hcmp : tagsSort remoteVersion c.Version ≥ 0) :
    UpdateVersion w tag = (.ok "", w) := by
  unfold UpdateVersion
  simp [htag, hlocal, hreg, hlookup, hcmp]

theorem c8_no_update_when_not_newer_witness :
    UpdateVersion c8World "latest" = (.ok "", c8World) :=
  c8_no_update_when_not_newer c8World "latest"
    ⟨"2.0.0", "2.0.0", ".gitbook/versions/2.0.0", "", "latest"⟩ []
    ⟨["2.0.0"], [("latest", "2.0.0")]⟩ "2.0.0"
    (by decide) (by decide) (by decide) (by decide) (by decide)

theorem ensure_subst_idem (bv v : String) :
    (if (if v = "" then bv else v) = "" then bv else (if v = "" then bv else v)) =
      (if v = "" then bv else v) := by
  by_cases hv : v = "" <;> simp [hv]

/-- C7: when local resolution of the (substituted) version fails,
`EnsureVersion` with `install = false` propagates that error with no
install attempted and a single resolve; with `install = true` it runs
the installer exactly once and re-resolves exactly once — a second
local miss after a successful install surfaces as that resolve error
(with the installed store kept), and the recursion stops there. -/
theorem c7_install_once_retry_once (w : World) (bv v e : String)
    (hmiss : localResolve w.store (if v = "" then bv else v) = .error e) :
    EnsureVersion w bv v false = ((.error e, w), 0, 1) ∧
    (∀ ie st, registryInstall w (if v = "" then bv else v) = (.error ie, st) →
      EnsureVersion w bv v true = ((.error ie, w), 1, 1)) ∧
    (∀ s store1 e2, registryInstall w (if v = "" then bv else v) = (.ok s, store1) →
      localResolve store1 (if v = "" then bv else v) = .error e2 →
      EnsureVersion w bv v true = ((.error e2, { w with store := store1 }), 1, 2)) := by
  refine ⟨?_, ?_, ?_⟩
  · rw [EnsureVersion]
    simp [hmiss]
  · intro ie st hinst
    rw [EnsureVersion]
    simp [hmiss, hinst]
  · intro s store1 e2 hinst hmiss2
    rw [EnsureVersion]
    simp only [hmiss, hinst]
    rw [EnsureVersion]
    simp [ensure_subst_idem, hmiss2]

theorem c7_install_once_retry_once_witness :
    EnsureVersion c7World "*" "5.0.0" false =
      ((.error "no version match: 5.0.0", c7World), 0, 1) ∧
    EnsureVersion c7World "*" "5.0.0" true =
      ((.error "no version match: 5.0.0",
        { c7World with store := [("5.0.1", .dir (some ⟨"gitbook", "5.0.1"⟩) true)] }),
       1, 2) :=
  have h := c7_install_once_retry_once c7World "*" "5.0.0" "no version match: 5.0.0"
    (by decide)
  ⟨h.1,
    h.2.2 "5.0.1" [("5.0.1", .dir (some ⟨"gitbook", "5.0.1"⟩) true)]
      "no version match: 5.0.0" (by decide) (by decide)⟩
